import Mathlib

/-
Verification of the `contexthelper` Go package: binary combination of two
`context.Context` values with OR semantics (`OrContext`, orcontext.go /
unnamed/part_000) and AND semantics (`AndContext`, contexthelper.go /
unnamed/part_002), plus the generic typed accessor `Value[T]`
(contexthelper.go lines 9-12).

Modelling choices (shallow embedding):
- A Go done channel (`<-chan struct{}`) of a context is one of: the nil
  channel, a channel that is closed at an absolute instant `t : Nat`, or a
  channel that is never closed.  Context done channels are only ever closed,
  never sent on, so this captures their full observable behaviour.
- Go `any` values stored in a context are modelled by the inductive `GoAny`
  with a `nil` case; `context.Context.Value` returning `nil` (key absent or
  stored nil) is `GoAny.nil`.
- An input context is a record of its four contract methods (deadline,
  done channel, error cause once done, value store), per the
  `context.Context` contract: `Err()` is nil before the done channel is
  closed and non-nil after.
- `sync.Once`-guarded fields are modelled by explicit state passing: each
  method returns its result together with the updated combined-context
  state; a `spawns` counter records how many watcher goroutines were
  started.  Concurrent first access through `sync.Once` is linearizable, so
  sequences of calls (`run` over a list of operations) model all observer
  histories.
- Channel identity is modelled by channel behaviour (`DoneChan` value):
  "returns the same channel" is rendered as "returns the same `DoneChan`".
-/

namespace CtxHelper

/-- A Go `<-chan struct{}` done channel: `nil` (absent), closed at instant
`t`, or never closed. -/
inductive DoneChan where
  | nil : DoneChan
  | fires (t : Nat) : DoneChan
  | never : DoneChan
deriving DecidableEq, Repr

/-- The instant at which a done channel is closed, if any. -/
def DoneChan.fireTime : DoneChan → Option Nat
  | .fires t => some t
  | _ => none

/-- Whether the done channel is closed (receivable) at instant `now`. -/
def DoneChan.firedBy : DoneChan → Nat → Bool
  | .fires t, now => decide (t ≤ now)
  | _, _ => false

/-- A Go `any` value as stored in a context's key/value store.  `nil` is the
nil interface value.  `tuple2` is `generichelper.Tuple2[any, any]` (external
dependency) as returned by `OrContext.Value`; `twoValues` is the package's
`TwoValues` pair — modelled from the spec (§3): an ordered pair data carrier
with no behaviour, whose defining file is not under src/. -/
inductive GoAny where
  | nil : GoAny
  | aint (n : Int) : GoAny
  | astr (s : String) : GoAny
  | tuple2 (item1 item2 : GoAny) : GoAny
  | twoValues (v1 v2 : GoAny) : GoAny
deriving DecidableEq, Repr

/-- A target type `T` of the generic accessor `Value[T]`. -/
inductive GoTy where
  | tint : GoTy
  | tstr : GoTy
deriving DecidableEq, Repr

/-- The Lean type denoted by a target type. -/
def GoTy.interp : GoTy → Type
  | .tint => Int
  | .tstr => String

/-- The Go zero value of a target type. -/
def GoTy.zero : (t : GoTy) → t.interp
  | .tint => (0 : Int)
  | .tstr => ""

/-- Embedding a typed value into `any`. -/
def GoTy.embed : (t : GoTy) → t.interp → GoAny
  | .tint, n => .aint n
  | .tstr, s => .astr s

/-- The Go type assertion `v.(T)`: succeeds exactly when the dynamic value
holds a value of type `T` (fails on nil and on any other type). -/
def typeAssert : (t : GoTy) → GoAny → Option t.interp
  | .tint, .aint n => some n
  | .tstr, .astr s => some s
  | _, _ => none

/-- An input `context.Context`, given by its contract: `Deadline`, `Done`,
the error cause it reports once its done channel is closed (`Err` is nil
before, non-nil after, per the contract), and its `Value` store (`GoAny.nil`
for an absent key). -/
structure Ctx where
  deadline : Option Nat
  done : DoneChan
  errCause : Nat
  value : String → GoAny

/-- `c.Err()` read at instant `now`: nil before the done channel closes, the
cause after (the `context.Context` contract). -/
def Ctx.err (c : Ctx) (now : Nat) : Option Nat :=
  if c.done.firedBy now then some c.errCause else none

/-- `Value[T](ctx, key)` from contexthelper.go lines 9-12:
`v, ok := ctx.Value(key).(T); return v, ok`. -/
def Value (t : GoTy) (ctx : Ctx) (key : String) : t.interp × Bool :=
  match typeAssert t (ctx.value key) with
  | some v => (v, true)
  | none => (t.zero, false)

/-- Body of `OrContext.Deadline` (orcontext.go lines 39-58): if `!ok1`
return `(dl2, ok2)`; if `!ok2` return `(dl1, ok1)`; if `dl1.Before(dl2)`
return `dl1` else `dl2`. -/
def orDeadline : Option Nat → Option Nat → Option Nat
  | none, d2 => d2
  | some d1, none => some d1
  | some d1, some d2 => if d1 < d2 then some d1 else some d2

/-- Body of `AndContext.Deadline` (contexthelper.go lines 51-70): same shape
with `dl1.After(dl2)` selecting `dl1`. -/
def andDeadline : Option Nat → Option Nat → Option Nat
  | none, d2 => d2
  | some d1, none => some d1
  | some d1, some d2 => if d2 < d1 then some d1 else some d2

/-- Closing instant of the channel closed by the `orDone` goroutine
(orcontext.go lines 60-67): `select` over the two input channels (a nil
channel never becomes receivable, a never-closed channel never becomes
receivable), then `close(done)` — so the earliest closing instant of the two
inputs, and never if neither closes. -/
def orDoneFires (done1 done2 : DoneChan) : Option Nat :=
  match done1.fireTime, done2.fireTime with
  | some t1, some t2 => some (min t1 t2)
  | some t1, none => some t1
  | none, some t2 => some t2
  | none, none => none

/-- Closing instant of the channel closed by the `andDone` goroutine
(contexthelper.go lines 72-87): loop selecting on the not-yet-nil input
channels, setting a channel to nil once it is observed closed, until both
are nil, then `close(done)`.  A nil input participates in no select case, so
the loop ends once every non-nil input has closed: the latest closing
instant of the non-nil inputs, never if a non-nil input never closes, and
immediately (instant 0) when both inputs are nil — the loop body never runs
(that case is unreachable from `Done`, which spawns no goroutine then). -/
def andDoneFires (done1 done2 : DoneChan) : Option Nat :=
  match done1, done2 with
  | .nil, .nil => some 0
  | .nil, d2 => d2.fireTime
  | d1, .nil => d1.fireTime
  | d1, d2 =>
    match d1.fireTime, d2.fireTime with
    | some t1, some t2 => some (max t1 t2)
    | _, _ => none

/-- The channel freshly allocated by `Done` and handed to a watcher whose
closing behaviour is `f`. -/
def chanOf : Option Nat → DoneChan
  | some t => .fires t
  | none => .never

/-- The derived done channel of `OrContext.Done` (orcontext.go lines 72-81):
nil when both inputs' channels are nil, else a fresh channel closed by
`orDone`. -/
def orCtxChan (c1 c2 : Ctx) : DoneChan :=
  if c1.done = DoneChan.nil ∧ c2.done = DoneChan.nil then .nil
  else chanOf (orDoneFires c1.done c2.done)

/-- The derived done channel of `AndContext.Done` (contexthelper.go lines
92-101): nil when both inputs' channels are nil, else a fresh channel closed
by `andDone`. -/
def andCtxChan (c1 c2 : Ctx) : DoneChan :=
  if c1.done = DoneChan.nil ∧ c2.done = DoneChan.nil then .nil
  else chanOf (andDoneFires c1.done c2.done)

/-- `errors.Join(e1, e2)`: nil when both are nil, otherwise an error
wrapping the non-nil arguments in order. -/
def joinErrs : Option Nat → Option Nat → Option (List Nat)
  | none, none => none
  | some e1, none => some [e1]
  | none, some e2 => some [e2]
  | some e1, some e2 => some [e1, e2]

/-- `OrContext` (orcontext.go lines 17-26): the two inputs plus the
`sync.Once`-guarded memo fields (`onceDeadline`/`deadline`/`okDeadline`,
`onceDone`/`done`, `onceErr`/`err`); `none` in a memo field means the
corresponding `Once` has not yet run.  `spawns` counts started watcher
goroutines (model bookkeeping, not a source field). -/
structure OrContext where
  ctx1 : Ctx
  ctx2 : Ctx
  deadlineMemo : Option (Option Nat)
  doneMemo : Option DoneChan
  errMemo : Option (Option (List Nat))
  spawns : Nat

/-- `NewOrContext` (orcontext.go): fresh combined context. -/
def newOrContext (ctx1 ctx2 : Ctx) : OrContext :=
  ⟨ctx1, ctx2, none, none, none, 0⟩

/-- `OrContext.Deadline` as a state transformer. -/
def OrContext.deadlineM (c : OrContext) : Option Nat × OrContext :=
  match c.deadlineMemo with
  | some m => (m, c)
  | none =>
    let m := orDeadline c.ctx1.deadline c.ctx2.deadline
    (m, { c with deadlineMemo := some m })

/-- `OrContext.Done` as a state transformer: on first call, if both inputs'
channels are nil the `done` field stays nil and no goroutine starts;
otherwise a fresh channel is allocated and `orDone` spawned on it. -/
def OrContext.doneM (c : OrContext) : DoneChan × OrContext :=
  match c.doneMemo with
  | some ch => (ch, c)
  | none =>
    if c.ctx1.done = DoneChan.nil ∧ c.ctx2.done = DoneChan.nil then
      (.nil, { c with doneMemo := some .nil })
    else
      let ch := chanOf (orDoneFires c.ctx1.done c.ctx2.done)
      (ch, { c with doneMemo := some ch, spawns := c.spawns + 1 })

/-- `OrContext.Err` (orcontext.go lines 87-95) as a state transformer at
instant `now`: `select` on `c.Done()` with a `default` branch — if the
derived channel is receivable, compute `errors.Join(Ctx1.Err(), Ctx2.Err())`
once and return the memo; otherwise return nil. -/
def OrContext.errM (c : OrContext) (now : Nat) : Option (List Nat) × OrContext :=
  let dc := c.doneM
  if dc.1.firedBy now then
    match dc.2.errMemo with
    | some m => (m, dc.2)
    | none =>
      let m := joinErrs (dc.2.ctx1.err now) (dc.2.ctx2.err now)
      (m, { dc.2 with errMemo := some m })
  else (none, dc.2)

/-- `OrContext.Value` (unnamed/part_000 lines 99-106, the copy exercised by
`TestOrContext_Value`): nil when both inputs return nil for the key,
otherwise `Tuple2{v1, v2}`. -/
def OrContext.value (c : OrContext) (key : String) : GoAny :=
  let v1 := c.ctx1.value key
  let v2 := c.ctx2.value key
  if v1 = GoAny.nil ∧ v2 = GoAny.nil then .nil else .tuple2 v1 v2

/-- The superseded draft copy of `OrContext.Value` (orcontext.go lines
100-102): always returns nil (contradicted by `TestOrContext_Value`). -/
def OrContext.value0 (_ : OrContext) (_ : String) : GoAny := .nil

/-- `AndContext` (contexthelper.go / unnamed/part_002): same field layout as
`OrContext`. -/
structure AndContext where
  ctx1 : Ctx
  ctx2 : Ctx
  deadlineMemo : Option (Option Nat)
  doneMemo : Option DoneChan
  errMemo : Option (Option (List Nat))
  spawns : Nat

/-- `NewAndContext` (contexthelper.go): fresh combined context. -/
def newAndContext (ctx1 ctx2 : Ctx) : AndContext :=
  ⟨ctx1, ctx2, none, none, none, 0⟩

/-- `AndContext.Deadline` as a state transformer. -/
def AndContext.deadlineM (c : AndContext) : Option Nat × AndContext :=
  match c.deadlineMemo with
  | some m => (m, c)
  | none =>
    let m := andDeadline c.ctx1.deadline c.ctx2.deadline
    (m, { c with deadlineMemo := some m })

/-- `AndContext.Done` (contexthelper.go lines 92-101) as a state
transformer. -/
def AndContext.doneM (c : AndContext) : DoneChan × AndContext :=
  match c.doneMemo with
  | some ch => (ch, c)
  | none =>
    if c.ctx1.done = DoneChan.nil ∧ c.ctx2.done = DoneChan.nil then
      (.nil, { c with doneMemo := some .nil })
    else
      let ch := chanOf (andDoneFires c.ctx1.done c.ctx2.done)
      (ch, { c with doneMemo := some ch, spawns := c.spawns + 1 })

/-- `AndContext.Err` (contexthelper.go lines 107-115) as a state
transformer at instant `now` (same body as `OrContext.Err`). -/
def AndContext.errM (c : AndContext) (now : Nat) : Option (List Nat) × AndContext :=
  let dc := c.doneM
  if dc.1.firedBy now then
    match dc.2.errMemo with
    | some m => (m, dc.2)
    | none =>
      let m := joinErrs (dc.2.ctx1.err now) (dc.2.ctx2.err now)
      (m, { dc.2 with errMemo := some m })
  else (none, dc.2)

/-- `AndContext.Value` (contexthelper.go lines 121-128, the copy exercised
by `TestAndContext_Value`): nil when at least one input returns nil for the
key, otherwise `TwoValues{v1, v2}`. -/
def AndContext.value (c : AndContext) (key : String) : GoAny :=
  let v1 := c.ctx1.value key
  let v2 := c.ctx2.value key
  if v1 = GoAny.nil ∨ v2 = GoAny.nil then .nil else .twoValues v1 v2

/-- The superseded draft copy of `AndContext.Value` (unnamed/part_002 lines
108-110): always returns nil (contradicted by `TestAndContext_Value`). -/
def AndContext.value0 (_ : AndContext) (_ : String) : GoAny := .nil

/-- One observer call on a combined context (an element of a call
history). -/
inductive Op where
  | deadline : Op
  | done : Op
  | err (now : Nat) : Op

/-- State effect of one observer call on an `OrContext`. -/
def OrContext.step (c : OrContext) : Op → OrContext
  | .deadline => c.deadlineM.2
  | .done => c.doneM.2
  | .err now => (c.errM now).2

/-- State after a history of observer calls on an `OrContext`. -/
def OrContext.run (c : OrContext) (ops : List Op) : OrContext :=
  ops.foldl OrContext.step c

/-- State effect of one observer call on an `AndContext`. -/
def AndContext.step (c : AndContext) : Op → AndContext
  | .deadline => c.deadlineM.2
  | .done => c.doneM.2
  | .err now => (c.errM now).2

/-- State after a history of observer calls on an `AndContext`. -/
def AndContext.run (c : AndContext) (ops : List Op) : AndContext :=
  ops.foldl AndContext.step c

/-- Value stored for a key by a chain of `context.WithValue` entries:
`context.Context.Value` returns the stored value (possibly nil) or nil when
the key is absent. -/
def storeValue (es : List (String × GoAny)) (k : String) : GoAny :=
  match es.lookup k with
  | some v => v
  | none => .nil

/-- An input context backed by a key/value store only (no deadline, nil
done channel), like a chain of `context.WithValue` over
`context.Background()`. -/
def storeCtx (es : List (String × GoAny)) : Ctx :=
  ⟨none, .nil, 0, storeValue es⟩

/-- Invariant of every reachable `OrContext` state: each memo field is
either unset or holds the value determined by the two inputs, and the
watcher goroutine count matches whether the done memo was set to a real
channel. -/
def OrContext.Good (s : OrContext) : Prop :=
  (s.deadlineMemo = none ∨
    s.deadlineMemo = some (orDeadline s.ctx1.deadline s.ctx2.deadline)) ∧
  ((s.doneMemo = none ∧ s.spawns = 0) ∨
    (s.doneMemo = some (orCtxChan s.ctx1 s.ctx2) ∧
      s.spawns =
        (if s.ctx1.done = DoneChan.nil ∧ s.ctx2.done = DoneChan.nil then 0 else 1)))

theorem OrContext.good_new (c1 c2 : Ctx) : (newOrContext c1 c2).Good := by
  simp [OrContext.Good, newOrContext]

theorem OrContext.doneM_ctx (s : OrContext) :
    (s.doneM.2).ctx1 = s.ctx1 ∧ (s.doneM.2).ctx2 = s.ctx2 := by
  obtain ⟨c1, c2, dm, dn, em, sp⟩ := s
  cases dn with
  | some ch => simp [OrContext.doneM]
  | none => simp only [OrContext.doneM]; split <;> simp

theorem OrContext.doneM_errMemo (s : OrContext) :
    (s.doneM.2).errMemo = s.errMemo := by
  obtain ⟨c1, c2, dm, dn, em, sp⟩ := s
  cases dn with
  | some ch => simp [OrContext.doneM]
  | none => simp only [OrContext.doneM]; split <;> rfl

theorem OrContext.step_fields (s : OrContext) (op : Op) :
    (s.step op).ctx1 = s.ctx1 ∧ (s.step op).ctx2 = s.ctx2 := by
  cases op with
  | deadline =>
    obtain ⟨c1, c2, dm, dn, em, sp⟩ := s
    cases dm <;> simp [OrContext.step, OrContext.deadlineM]
  | done => exact s.doneM_ctx
  | err now =>
    have hc := s.doneM_ctx
    simp only [OrContext.step, OrContext.errM]
    split
    · split
      · exact hc
      · exact hc
    · exact hc

theorem OrContext.good_doneM (s : OrContext) (h : s.Good) : (s.doneM.2).Good := by
  obtain ⟨c1, c2, dm, dn, em, sp⟩ := s
  obtain ⟨hd, hm⟩ := h
  cases dn with
  | some ch => exact ⟨hd, hm⟩
  | none =>
    have hs : sp = 0 := by
      rcases hm with ⟨-, hs⟩ | ⟨hcon, -⟩
      · exact hs
      · exact absurd hcon (by simp)
    by_cases hb : c1.done = DoneChan.nil ∧ c2.done = DoneChan.nil
    · simp only [OrContext.doneM, if_pos hb]
      refine ⟨hd, Or.inr ⟨?_, ?_⟩⟩ <;> simp [orCtxChan, if_pos hb, hs]
    · simp only [OrContext.doneM, if_neg hb]
      refine ⟨hd, Or.inr ⟨?_, ?_⟩⟩ <;> simp [orCtxChan, if_neg hb, hs]

theorem OrContext.good_step (s : OrContext) (op : Op) (h : s.Good) :
    (s.step op).Good := by
  cases op with
  | deadline =>
    obtain ⟨c1, c2, dm, dn, em, sp⟩ := s
    obtain ⟨hd, hm⟩ := h
    cases dm with
    | some m => exact ⟨hd, hm⟩
    | none => exact ⟨Or.inr rfl, hm⟩
  | done => exact s.good_doneM h
  | err now =>
    have hg := s.good_doneM h
    simp only [OrContext.step, OrContext.errM]
    split
    · split
      · exact hg
      · exact hg
    · exact hg

theorem OrContext.good_run (s : OrContext) (ops : List Op) (h : s.Good) :
    (s.run ops).Good := by
  induction ops generalizing s with
  | nil => exact h
  | cons op ops ih => exact ih _ (s.good_step op h)

theorem OrContext.run_fields (s : OrContext) (ops : List Op) :
    (s.run ops).ctx1 = s.ctx1 ∧ (s.run ops).ctx2 = s.ctx2 := by
  induction ops generalizing s with
  | nil => exact ⟨rfl, rfl⟩
  | cons op ops ih =>
    obtain ⟨h1, h2⟩ := ih (s.step op)
    obtain ⟨g1, g2⟩ := s.step_fields op
    exact ⟨h1.trans g1, h2.trans g2⟩

theorem OrContext.doneM_fst (s : OrContext) (h : s.Good) :
    s.doneM.1 = orCtxChan s.ctx1 s.ctx2 := by
  obtain ⟨c1, c2, dm, dn, em, sp⟩ := s
  obtain ⟨-, hm⟩ := h
  cases dn with
  | none =>
    by_cases hb : c1.done = DoneChan.nil ∧ c2.done = DoneChan.nil
    · simp [OrContext.doneM, orCtxChan, if_pos hb]
    · simp [OrContext.doneM, orCtxChan, if_neg hb]
  | some ch =>
    rcases hm with ⟨hcon, -⟩ | ⟨hch, -⟩
    · cases hcon
    · simp only [OrContext.doneM]
      simpa using hch

theorem OrContext.deadlineM_fst (s : OrContext) (h : s.Good) :
    s.deadlineM.1 = orDeadline s.ctx1.deadline s.ctx2.deadline := by
  obtain ⟨c1, c2, dm, dn, em, sp⟩ := s
  obtain ⟨hd, -⟩ := h
  cases dm <;> simp_all [OrContext.deadlineM]

theorem OrContext.spawns_le (s : OrContext) (h : s.Good) : s.spawns ≤ 1 := by
  obtain ⟨-, hm⟩ := h
  rcases hm with ⟨-, hs⟩ | ⟨-, hs⟩
  · omega
  · rw [hs]; split <;> omega

theorem OrContext.errMemo_step (s : OrContext) (op : Op) (m : Option (List Nat))
    (h : s.errMemo = some m) : (s.step op).errMemo = some m := by
  cases op with
  | deadline =>
    obtain ⟨c1, c2, dm, dn, em, sp⟩ := s
    cases dm <;> simpa [OrContext.step, OrContext.deadlineM] using h
  | done =>
    show (s.doneM.2).errMemo = some m
    rw [s.doneM_errMemo]; exact h
  | err now =>
    have hd : (s.doneM.2).errMemo = some m := by rw [s.doneM_errMemo]; exact h
    simp only [OrContext.step, OrContext.errM]
    split
    · split
      next heq => rw [hd] at heq; exact heq.symm ▸ hd
      next heq => rw [hd] at heq; cases heq
    · exact hd

theorem OrContext.errMemo_run (s : OrContext) (ops : List Op) (m : Option (List Nat))
    (h : s.errMemo = some m) : (s.run ops).errMemo = some m := by
  induction ops generalizing s with
  | nil => exact h
  | cons op ops ih => exact ih _ (s.errMemo_step op m h)

/-- Invariant of every reachable `AndContext` state (mirror of
`OrContext.Good`). -/
def AndContext.Good (s : AndContext) : Prop :=
  (s.deadlineMemo = none ∨
    s.deadlineMemo = some (andDeadline s.ctx1.deadline s.ctx2.deadline)) ∧
  ((s.doneMemo = none ∧ s.spawns = 0) ∨
    (s.doneMemo = some (andCtxChan s.ctx1 s.ctx2) ∧
      s.spawns =
        (if s.ctx1.done = DoneChan.nil ∧ s.ctx2.done = DoneChan.nil then 0 else 1)))

theorem AndContext.good_new_a (c1 c2 : Ctx) : (newAndContext c1 c2).Good := by
  simp [AndContext.Good, newAndContext]

theorem AndContext.doneM_ctx_a (s : AndContext) :
    (s.doneM.2).ctx1 = s.ctx1 ∧ (s.doneM.2).ctx2 = s.ctx2 := by
  obtain ⟨c1, c2, dm, dn, em, sp⟩ := s
  cases dn with
  | some ch => simp [AndContext.doneM]
  | none => simp only [AndContext.doneM]; split <;> simp

theorem AndContext.doneM_errMemo_a (s : AndContext) :
    (s.doneM.2).errMemo = s.errMemo := by
  obtain ⟨c1, c2, dm, dn, em, sp⟩ := s
  cases dn with
  | some ch => simp [AndContext.doneM]
  | none => simp only [AndContext.doneM]; split <;> rfl

theorem AndContext.step_fields_a (s : AndContext) (op : Op) :
    (s.step op).ctx1 = s.ctx1 ∧ (s.step op).ctx2 = s.ctx2 := by
  cases op with
  | deadline =>
    obtain ⟨c1, c2, dm, dn, em, sp⟩ := s
    cases dm <;> simp [AndContext.step, AndContext.deadlineM]
  | done => exact s.doneM_ctx_a
  | err now =>
    have hc := s.doneM_ctx_a
    simp only [AndContext.step, AndContext.errM]
    split
    · split
      · exact hc
      · exact hc
    · exact hc

theorem AndContext.good_doneM_a (s : AndContext) (h : s.Good) : (s.doneM.2).Good := by
  obtain ⟨c1, c2, dm, dn, em, sp⟩ := s
  obtain ⟨hd, hm⟩ := h
  cases dn with
  | some ch => exact ⟨hd, hm⟩
  | none =>
    have hs : sp = 0 := by
      rcases hm with ⟨-, hs⟩ | ⟨hcon, -⟩
      · exact hs
      · exact absurd hcon (by simp)
    by_cases hb : c1.done = DoneChan.nil ∧ c2.done = DoneChan.nil
    · simp only [AndContext.doneM, if_pos hb]
      refine ⟨hd, Or.inr ⟨?_, ?_⟩⟩ <;> simp [andCtxChan, if_pos hb, hs]
    · simp only [AndContext.doneM, if_neg hb]
      refine ⟨hd, Or.inr ⟨?_, ?_⟩⟩ <;> simp [andCtxChan, if_neg hb, hs]

theorem AndContext.good_step_a (s : AndContext) (op : Op) (h : s.Good) :
    (s.step op).Good := by
  cases op with
  | deadline =>
    obtain ⟨c1, c2, dm, dn, em, sp⟩ := s
    obtain ⟨hd, hm⟩ := h
    cases dm with
    | some m => exact ⟨hd, hm⟩
    | none => exact ⟨Or.inr rfl, hm⟩
  | done => exact s.good_doneM_a h
  | err now =>
    have hg := s.good_doneM_a h
    simp only [AndContext.step, AndContext.errM]
    split
    · split
      · exact hg
      · exact hg
    · exact hg

theorem AndContext.good_run_a (s : AndContext) (ops : List Op) (h : s.Good) :
    (s.run ops).Good := by
  induction ops generalizing s with
  | nil => exact h
  | cons op ops ih => exact ih _ (s.good_step_a op h)

theorem AndContext.run_fields_a (s : AndContext) (ops : List Op) :
    (s.run ops).ctx1 = s.ctx1 ∧ (s.run ops).ctx2 = s.ctx2 := by
  induction ops generalizing s with
  | nil => exact ⟨rfl, rfl⟩
  | cons op ops ih =>
    obtain ⟨h1, h2⟩ := ih (s.step op)
    obtain ⟨g1, g2⟩ := s.step_fields_a op
    exact ⟨h1.trans g1, h2.trans g2⟩

theorem AndContext.doneM_fst_a (s : AndContext) (h : s.Good) :
    s.doneM.1 = andCtxChan s.ctx1 s.ctx2 := by
  obtain ⟨c1, c2, dm, dn, em, sp⟩ := s
  obtain ⟨-, hm⟩ := h
  cases dn with
  | none =>
    by_cases hb : c1.done = DoneChan.nil ∧ c2.done = DoneChan.nil
    · simp [AndContext.doneM, andCtxChan, if_pos hb]
    · simp [AndContext.doneM, andCtxChan, if_neg hb]
  | some ch =>
    rcases hm with ⟨hcon, -⟩ | ⟨hch, -⟩
    · cases hcon
    · simp only [AndContext.doneM]
      simpa using hch

theorem AndContext.deadlineM_fst_a (s : AndContext) (h : s.Good) :
    s.deadlineM.1 = andDeadline s.ctx1.deadline s.ctx2.deadline := by
  obtain ⟨c1, c2, dm, dn, em, sp⟩ := s
  obtain ⟨hd, -⟩ := h
  cases dm <;> simp_all [AndContext.deadlineM]

theorem AndContext.spawns_le_a (s : AndContext) (h : s.Good) : s.spawns ≤ 1 := by
  obtain ⟨-, hm⟩ := h
  rcases hm with ⟨-, hs⟩ | ⟨-, hs⟩
  · omega
  · rw [hs]; split <;> omega

theorem AndContext.errMemo_step_a (s : AndContext) (op : Op) (m : Option (List Nat))
    (h : s.errMemo = some m) : (s.step op).errMemo = some m := by
  cases op with
  | deadline =>
    obtain ⟨c1, c2, dm, dn, em, sp⟩ := s
    cases dm <;> simpa [AndContext.step, AndContext.deadlineM] using h
  | done =>
    show (s.doneM.2).errMemo = some m
    rw [s.doneM_errMemo_a]; exact h
  | err now =>
    have hd : (s.doneM.2).errMemo = some m := by rw [s.doneM_errMemo_a]; exact h
    simp only [AndContext.step, AndContext.errM]
    split
    · split
      next heq => rw [hd] at heq; exact heq.symm ▸ hd
      next heq => rw [hd] at heq; cases heq
    · exact hd

theorem AndContext.errMemo_run_a (s : AndContext) (ops : List Op) (m : Option (List Nat))
    (h : s.errMemo = some m) : (s.run ops).errMemo = some m := by
  induction ops generalizing s with
  | nil => exact h
  | cons op ops ih => exact ih _ (s.errMemo_step_a op m h)

theorem DoneChan.firedBy_mono (d : DoneChan) (a b : Nat) (h : d.firedBy a = true)
    (hab : a ≤ b) : d.firedBy b = true := by
  cases d <;> simp_all [DoneChan.firedBy]
  omega

theorem OrContext.errM_fst_new (c1 c2 : Ctx) (now : Nat) :
    ((newOrContext c1 c2).errM now).1 =
      if (orCtxChan c1 c2).firedBy now then joinErrs (c1.err now) (c2.err now)
      else none := by
  by_cases hb : c1.done = DoneChan.nil ∧ c2.done = DoneChan.nil
  · simp [OrContext.errM, OrContext.doneM, newOrContext, orCtxChan, if_pos hb,
      DoneChan.firedBy]
  · simp only [OrContext.errM, OrContext.doneM, newOrContext, orCtxChan,
      if_neg hb]
    split <;> rfl

theorem OrContext.errM_snd_new (c1 c2 : Ctx) (now : Nat)
    (hf : (orCtxChan c1 c2).firedBy now = true) :
    (((newOrContext c1 c2).errM now).2).errMemo =
      some (joinErrs (c1.err now) (c2.err now)) := by
  by_cases hb : c1.done = DoneChan.nil ∧ c2.done = DoneChan.nil
  · rw [orCtxChan, if_pos hb] at hf
    cases hf
  · rw [orCtxChan, if_neg hb] at hf
    simp only [OrContext.errM, OrContext.doneM, newOrContext, if_neg hb]
    rw [hf]
    rfl

theorem OrContext.errM_memo (s : OrContext) (hGood : s.Good) (m : Option (List Nat))
    (hm : s.errMemo = some m) (now2 : Nat)
    (hf : (orCtxChan s.ctx1 s.ctx2).firedBy now2 = true) : (s.errM now2).1 = m := by
  have hfst := s.doneM_fst hGood
  have hmem : (s.doneM.2).errMemo = some m := by rw [s.doneM_errMemo]; exact hm
  simp only [OrContext.errM]
  rw [hfst, hf, if_pos rfl, hmem]

theorem AndContext.errM_fst_new_a (c1 c2 : Ctx) (now : Nat) :
    ((newAndContext c1 c2).errM now).1 =
      if (andCtxChan c1 c2).firedBy now then joinErrs (c1.err now) (c2.err now)
      else none := by
  by_cases hb : c1.done = DoneChan.nil ∧ c2.done = DoneChan.nil
  · simp [AndContext.errM, AndContext.doneM, newAndContext, andCtxChan, if_pos hb,
      DoneChan.firedBy]
  · simp only [AndContext.errM, AndContext.doneM, newAndContext, andCtxChan,
      if_neg hb]
    split <;> rfl

theorem AndContext.errM_snd_new_a (c1 c2 : Ctx) (now : Nat)
    (hf : (andCtxChan c1 c2).firedBy now = true) :
    (((newAndContext c1 c2).errM now).2).errMemo =
      some (joinErrs (c1.err now) (c2.err now)) := by
  by_cases hb : c1.done = DoneChan.nil ∧ c2.done = DoneChan.nil
  · rw [andCtxChan, if_pos hb] at hf
    cases hf
  · rw [andCtxChan, if_neg hb] at hf
    simp only [AndContext.errM, AndContext.doneM, newAndContext, if_neg hb]
    rw [hf]
    rfl

theorem AndContext.errM_memo_a (s : AndContext) (hGood : s.Good) (m : Option (List Nat))
    (hm : s.errMemo = some m) (now2 : Nat)
    (hf : (andCtxChan s.ctx1 s.ctx2).firedBy now2 = true) : (s.errM now2).1 = m := by
  have hfst := s.doneM_fst_a hGood
  have hmem : (s.doneM.2).errMemo = some m := by rw [s.doneM_errMemo_a]; exact hm
  simp only [AndContext.errM]
  rw [hfst, hf, if_pos rfl, hmem]

theorem joinErrs_eq_none (e1 e2 : Option Nat) :
    joinErrs e1 e2 = none ↔ e1 = none ∧ e2 = none := by
  cases e1 <;> cases e2 <;> simp [joinErrs]

theorem orDeadline_some_some (d1 d2 : Nat) :
    orDeadline (some d1) (some d2) = some (min d1 d2) := by
  simp only [orDeadline]
  rcases Nat.lt_or_ge d1 d2 with h | h
  · rw [if_pos h, Nat.min_eq_left (Nat.le_of_lt h)]
  · rw [if_neg (Nat.not_lt.mpr h), Nat.min_eq_right h]

theorem andDeadline_some_some (d1 d2 : Nat) :
    andDeadline (some d1) (some d2) = some (max d1 d2) := by
  simp only [andDeadline]
  rcases Nat.lt_or_ge d2 d1 with h | h
  · rw [if_pos h, Nat.max_eq_left (Nat.le_of_lt h)]
  · rw [if_neg (Nat.not_lt.mpr h), Nat.max_eq_right h]

/-- An input context shaped like `context.Background()`: no deadline, nil
done channel, no values. -/
def bgCtx : Ctx := ⟨none, DoneChan.nil, 0, fun _ => GoAny.nil⟩

/-- A cancellable input context for concrete witnesses: deadline 5, done
channel closed at instant 3, error cause 1, every key mapped to `1234`. -/
def exCtxA : Ctx := ⟨some 5, DoneChan.fires 3, 1, fun _ => GoAny.aint 1234⟩

/-- A cancellable input context for concrete witnesses: deadline 9, done
channel closed at instant 7, error cause 2, every key mapped to `"1234"`. -/
def exCtxB : Ctx := ⟨some 9, DoneChan.fires 7, 2, fun _ => GoAny.astr "1234"⟩

/-- C1: the derived done-signal fires only strictly after the policy's input
condition has become true.  The `orDone` watcher's channel closes at an
instant by which at least one input channel has closed, and closes at no
instant at which neither has; the `andDone` watcher's channel closes at an
instant by which every non-nil input channel has closed, and closes at no
instant at which the condition (all non-nil inputs closed) is still false; a
nil input contributes no firing event, so with exactly one nil side the
AND-combined channel closes exactly when the present side's channel does. -/
theorem c1_done_fires_only_after_inputs (d1 d2 : DoneChan)
    (h : ¬(d1 = DoneChan.nil ∧ d2 = DoneChan.nil)) :
    (∀ T, orDoneFires d1 d2 = some T →
      (d1.firedBy T = true ∨ d2.firedBy T = true)) ∧
    (∀ T t, orDoneFires d1 d2 = some T → t < T →
      d1.firedBy t = false ∧ d2.firedBy t = false) ∧
    (∀ T, andDoneFires d1 d2 = some T →
      (d1 ≠ DoneChan.nil → d1.firedBy T = true) ∧
      (d2 ≠ DoneChan.nil → d2.firedBy T = true)) ∧
    (∀ T t, andDoneFires d1 d2 = some T → t < T →
      ¬((d1 = DoneChan.nil ∨ d1.firedBy t = true) ∧
        (d2 = DoneChan.nil ∨ d2.firedBy t = true))) ∧
    (d1 = DoneChan.nil → andDoneFires d1 d2 = d2.fireTime) ∧
    (d2 = DoneChan.nil → andDoneFires d1 d2 = d1.fireTime) := by
  refine ⟨?_, ?_, ?_, ?_, ?_, ?_⟩ <;>
    cases d1 <;> cases d2 <;>
      simp_all [orDoneFires, andDoneFires, DoneChan.firedBy, DoneChan.fireTime] <;>
      omega

/-- C1 witness: with the left channel closing at 3 and the right channel
never closing, the OR watcher's close instant 3 is an instant by which one
input has closed. -/
theorem c1_witness :
    (DoneChan.fires 3).firedBy 3 = true ∨ DoneChan.never.firedBy 3 = true :=
  (c1_done_fires_only_after_inputs (DoneChan.fires 3) DoneChan.never
    (by simp)).1 3 rfl

/-- C2: when both inputs' done channels are nil, `Done()` returns the nil
channel (absent, not an always-pending channel) under both policies, and no
watcher goroutine is ever spawned, across any history of observer calls. -/
theorem c2_absent_done_no_watcher (c1 c2 : Ctx)
    (h1 : c1.done = DoneChan.nil) (h2 : c2.done = DoneChan.nil) (ops : List Op) :
    ((newOrContext c1 c2).run ops).doneM.1 = DoneChan.nil ∧
    ((newOrContext c1 c2).run ops).spawns = 0 ∧
    ((newAndContext c1 c2).run ops).doneM.1 = DoneChan.nil ∧
    ((newAndContext c1 c2).run ops).spawns = 0 := by
  have hgo := (newOrContext c1 c2).good_run ops (OrContext.good_new c1 c2)
  have hga := (newAndContext c1 c2).good_run_a ops (AndContext.good_new_a c1 c2)
  obtain ⟨ho1, ho2⟩ := (newOrContext c1 c2).run_fields ops
  obtain ⟨ha1, ha2⟩ := (newAndContext c1 c2).run_fields_a ops
  have hb : c1.done = DoneChan.nil ∧ c2.done = DoneChan.nil := ⟨h1, h2⟩
  refine ⟨?_, ?_, ?_, ?_⟩
  · rw [OrContext.doneM_fst _ hgo, ho1, ho2]
    simp [newOrContext, orCtxChan, h1, h2]
  · obtain ⟨-, hm⟩ := hgo
    rcases hm with ⟨-, hs⟩ | ⟨-, hs⟩
    · exact hs
    · rw [hs, ho1, ho2]
      simp [newOrContext, h1, h2]
  · rw [AndContext.doneM_fst_a _ hga, ha1, ha2]
    simp [newAndContext, andCtxChan, h1, h2]
  · obtain ⟨-, hm⟩ := hga
    rcases hm with ⟨-, hs⟩ | ⟨-, hs⟩
    · exact hs
    · rw [hs, ha1, ha2]
      simp [newAndContext, h1, h2]

/-- C2 witness: combining two background-like contexts, after a `Done` call
followed by an `Err` call, the done channel is nil and no watcher was
spawned, under both policies. -/
theorem c2_witness :
    ((newOrContext bgCtx bgCtx).run [Op.done, Op.err 4]).doneM.1 = DoneChan.nil ∧
    ((newOrContext bgCtx bgCtx).run [Op.done, Op.err 4]).spawns = 0 ∧
    ((newAndContext bgCtx bgCtx).run [Op.done, Op.err 4]).doneM.1 = DoneChan.nil ∧
    ((newAndContext bgCtx bgCtx).run [Op.done, Op.err 4]).spawns = 0 :=
  c2_absent_done_no_watcher bgCtx bgCtx rfl rfl [Op.done, Op.err 4]

/-- C4: with both deadlines set the OR-combined `Deadline()` is their
minimum and the AND-combined `Deadline()` their maximum; with exactly one
set both policies return it (with the ok flag true, i.e. a `some` result);
with neither set both return no deadline. -/
theorem c4_deadline_min_max (c1 c2 : Ctx) :
    (∀ d1 d2, c1.deadline = some d1 → c2.deadline = some d2 →
      (newOrContext c1 c2).deadlineM.1 = some (min d1 d2) ∧
      (newAndContext c1 c2).deadlineM.1 = some (max d1 d2)) ∧
    (∀ d, c1.deadline = some d → c2.deadline = none →
      (newOrContext c1 c2).deadlineM.1 = some d ∧
      (newAndContext c1 c2).deadlineM.1 = some d) ∧
    (∀ d, c1.deadline = none → c2.deadline = some d →
      (newOrContext c1 c2).deadlineM.1 = some d ∧
      (newAndContext c1 c2).deadlineM.1 = some d) ∧
    (c1.deadline = none → c2.deadline = none →
      (newOrContext c1 c2).deadlineM.1 = none ∧
      (newAndContext c1 c2).deadlineM.1 = none) := by
  have ho : (newOrContext c1 c2).deadlineM.1 =
      orDeadline c1.deadline c2.deadline := rfl
  have ha : (newAndContext c1 c2).deadlineM.1 =
      andDeadline c1.deadline c2.deadline := rfl
  refine ⟨?_, ?_, ?_, ?_⟩
  · intro d1 d2 e1 e2
    rw [ho, ha, e1, e2, orDeadline_some_some, andDeadline_some_some]
    exact ⟨rfl, rfl⟩
  · intro d e1 e2
    rw [ho, ha, e1, e2]
    exact ⟨rfl, rfl⟩
  · intro d e1 e2
    rw [ho, ha, e1, e2]
    exact ⟨rfl, rfl⟩
  · intro e1 e2
    rw [ho, ha, e1, e2]
    exact ⟨rfl, rfl⟩

/-- C4 witness: with deadlines 5 and 9, the OR combination's deadline is 5
and the AND combination's is 9. -/
theorem c4_witness :
    (newOrContext exCtxA exCtxB).deadlineM.1 = some (min 5 9) ∧
    (newAndContext exCtxA exCtxB).deadlineM.1 = some (max 5 9) :=
  (c4_deadline_min_max exCtxA exCtxB).1 5 9 rfl rfl

/-- C3: for both policies, `Err()` is nil (without blocking — the select has
a default branch) whenever the derived done channel has not yet closed; once
it has closed, `Err()` is `errors.Join` of the two inputs' errors read at
that moment — Left's cause then Right's cause, nil sides dropped, nil
exactly when both sides are nil — and a later repeated read returns the
identical memoized aggregate. -/
theorem c3_err_aggregation (c1 c2 : Ctx) (now now2 : Nat) :
    ((orCtxChan c1 c2).firedBy now = false →
      ((newOrContext c1 c2).errM now).1 = none) ∧
    ((orCtxChan c1 c2).firedBy now = true →
      ((newOrContext c1 c2).errM now).1 = joinErrs (c1.err now) (c2.err now) ∧
      (((newOrContext c1 c2).errM now).1 = none ↔
        c1.err now = none ∧ c2.err now = none) ∧
      (∀ e1 e2, c1.err now = some e1 → c2.err now = some e2 →
        ((newOrContext c1 c2).errM now).1 = some [e1, e2]) ∧
      (now ≤ now2 →
        ((((newOrContext c1 c2).errM now).2).errM now2).1 =
          ((newOrContext c1 c2).errM now).1)) ∧
    ((andCtxChan c1 c2).firedBy now = false →
      ((newAndContext c1 c2).errM now).1 = none) ∧
    ((andCtxChan c1 c2).firedBy now = true →
      ((newAndContext c1 c2).errM now).1 = joinErrs (c1.err now) (c2.err now) ∧
      (((newAndContext c1 c2).errM now).1 = none ↔
        c1.err now = none ∧ c2.err now = none) ∧
      (∀ e1 e2, c1.err now = some e1 → c2.err now = some e2 →
        ((newAndContext c1 c2).errM now).1 = some [e1, e2]) ∧
      (now ≤ now2 →
        ((((newAndContext c1 c2).errM now).2).errM now2).1 =
          ((newAndContext c1 c2).errM now).1)) := by
  refine ⟨?_, ?_, ?_, ?_⟩
  · intro hf
    rw [OrContext.errM_fst_new, hf, if_neg (by simp)]
  · intro hf
    have eq1 : ((newOrContext c1 c2).errM now).1 =
        joinErrs (c1.err now) (c2.err now) := by
      rw [OrContext.errM_fst_new, hf, if_pos rfl]
    refine ⟨eq1, by rw [eq1, joinErrs_eq_none], ?_, ?_⟩
    · intro e1 e2 he1 he2
      rw [eq1, he1, he2]
      rfl
    · intro hle
      have hpost : (((newOrContext c1 c2).errM now).2).Good :=
        (newOrContext c1 c2).good_step (Op.err now) (OrContext.good_new c1 c2)
      have hfld := (newOrContext c1 c2).step_fields (Op.err now)
      have hx1 : (((newOrContext c1 c2).errM now).2).ctx1 = c1 := hfld.1.trans rfl
      have hx2 : (((newOrContext c1 c2).errM now).2).ctx2 = c2 := hfld.2.trans rfl
      have hmemo := OrContext.errM_snd_new c1 c2 now hf
      have hf2 : (orCtxChan (((newOrContext c1 c2).errM now).2).ctx1
          (((newOrContext c1 c2).errM now).2).ctx2).firedBy now2 = true := by
        rw [hx1, hx2]
        exact DoneChan.firedBy_mono _ now now2 hf hle
      rw [OrContext.errM_memo _ hpost _ hmemo now2 hf2, eq1]
  · intro hf
    rw [AndContext.errM_fst_new_a, hf, if_neg (by simp)]
  · intro hf
    have eq1 : ((newAndContext c1 c2).errM now).1 =
        joinErrs (c1.err now) (c2.err now) := by
      rw [AndContext.errM_fst_new_a, hf, if_pos rfl]
    refine ⟨eq1, by rw [eq1, joinErrs_eq_none], ?_, ?_⟩
    · intro e1 e2 he1 he2
      rw [eq1, he1, he2]
      rfl
    · intro hle
      have hpost : (((newAndContext c1 c2).errM now).2).Good :=
        (newAndContext c1 c2).good_step_a (Op.err now) (AndContext.good_new_a c1 c2)
      have hfld := (newAndContext c1 c2).step_fields_a (Op.err now)
      have hx1 : (((newAndContext c1 c2).errM now).2).ctx1 = c1 := hfld.1.trans rfl
      have hx2 : (((newAndContext c1 c2).errM now).2).ctx2 = c2 := hfld.2.trans rfl
      have hmemo := AndContext.errM_snd_new_a c1 c2 now hf
      have hf2 : (andCtxChan (((newAndContext c1 c2).errM now).2).ctx1
          (((newAndContext c1 c2).errM now).2).ctx2).firedBy now2 = true := by
        rw [hx1, hx2]
        exact DoneChan.firedBy_mono _ now now2 hf hle
      rw [AndContext.errM_memo_a _ hpost _ hmemo now2 hf2, eq1]

/-- C3 witness: with the left input closed at 3 (cause 1) and the right at
7 (cause 2), reading the OR combination's error at instant 10 yields the
join `[1, 2]` in Left-then-Right order. -/
theorem c3_witness :
    ((newOrContext exCtxA exCtxB).errM 10).1 = some [1, 2] :=
  ((c3_err_aggregation exCtxA exCtxB 10 12).2.1 rfl).2.2.1 1 2 rfl rfl

/-- C5: the OR combination's `Value(key)` is nil when both inputs resolve
the key to nil, and otherwise is the `Tuple2` pair of the two inputs'
results (each possibly nil), a non-nil combined result. -/
theorem c5_or_lookup_disjunctive (c1 c2 : Ctx) (key : String) :
    (c1.value key = GoAny.nil → c2.value key = GoAny.nil →
      (newOrContext c1 c2).value key = GoAny.nil) ∧
    (¬(c1.value key = GoAny.nil ∧ c2.value key = GoAny.nil) →
      (newOrContext c1 c2).value key =
        GoAny.tuple2 (c1.value key) (c2.value key) ∧
      (newOrContext c1 c2).value key ≠ GoAny.nil) := by
  constructor
  · intro h1 h2
    simp [OrContext.value, newOrContext, h1, h2]
  · intro h
    simp only [OrContext.value, newOrContext]
    rw [if_neg h]
    exact ⟨rfl, by simp⟩

/-- C5 witness: left resolves the key to `1234`, right has no value for it:
the OR lookup returns the pair `(1234, nil)`, a non-nil result. -/
theorem c5_witness :
    (newOrContext exCtxA bgCtx).value "key" =
      GoAny.tuple2 (GoAny.aint 1234) GoAny.nil :=
  ((c5_or_lookup_disjunctive exCtxA bgCtx "key").2 (by decide)).1

/-- C6: the AND combination's `Value(key)` is the non-nil `TwoValues` pair
of the two inputs' values exactly when both inputs resolve the key to a
non-nil value, and is nil when either side is nil. -/
theorem c6_and_lookup_conjunctive (c1 c2 : Ctx) (key : String) :
    (c1.value key ≠ GoAny.nil → c2.value key ≠ GoAny.nil →
      (newAndContext c1 c2).value key =
        GoAny.twoValues (c1.value key) (c2.value key) ∧
      (newAndContext c1 c2).value key ≠ GoAny.nil) ∧
    (c1.value key = GoAny.nil ∨ c2.value key = GoAny.nil →
      (newAndContext c1 c2).value key = GoAny.nil) ∧
    ((newAndContext c1 c2).value key ≠ GoAny.nil ↔
      c1.value key ≠ GoAny.nil ∧ c2.value key ≠ GoAny.nil) := by
  refine ⟨?_, ?_, ?_⟩
  · intro h1 h2
    simp only [AndContext.value, newAndContext]
    rw [if_neg (by tauto)]
    exact ⟨rfl, by simp⟩
  · intro h
    simp only [AndContext.value, newAndContext]
    rw [if_pos h]
  · by_cases h1 : c1.value key = GoAny.nil
    · simp only [AndContext.value, newAndContext]
      rw [if_pos (Or.inl h1)]
      simp [h1]
    · by_cases h2 : c2.value key = GoAny.nil
      · simp only [AndContext.value, newAndContext]
        rw [if_pos (Or.inr h2)]
        simp [h2]
      · simp only [AndContext.value, newAndContext]
        rw [if_neg (by tauto)]
        simp [h1, h2]

/-- C6 witness: both inputs resolve the key (to `1234` and `"1234"`): the
AND lookup returns the non-nil pair of both values. -/
theorem c6_witness :
    (newAndContext exCtxA exCtxB).value "key" =
      GoAny.twoValues (GoAny.aint 1234) (GoAny.astr "1234") :=
  ((c6_and_lookup_conjunctive exCtxA exCtxB "key").1 (by decide) (by decide)).1

/-- C7: per combined-context instance, over any history of observer calls,
at most one watcher goroutine is ever started, `Done()` always returns the
same channel as its first call, `Deadline()` always returns the first
computed result, and an error aggregate, once memoized, is never recomputed
or changed by further calls — under both policies.  (Concurrent observers
are modelled by their `sync.Once`-linearized call history.) -/
theorem c7_memoized_once (c1 c2 : Ctx) (ops ops2 : List Op) (m : Option (List Nat)) :
    ((newOrContext c1 c2).run ops).spawns ≤ 1 ∧
    ((newOrContext c1 c2).run ops).doneM.1 = (newOrContext c1 c2).doneM.1 ∧
    ((newOrContext c1 c2).run ops).deadlineM.1 = (newOrContext c1 c2).deadlineM.1 ∧
    (((newOrContext c1 c2).run ops).errMemo = some m →
      (((newOrContext c1 c2).run ops).run ops2).errMemo = some m) ∧
    ((newAndContext c1 c2).run ops).spawns ≤ 1 ∧
    ((newAndContext c1 c2).run ops).doneM.1 = (newAndContext c1 c2).doneM.1 ∧
    ((newAndContext c1 c2).run ops).deadlineM.1 = (newAndContext c1 c2).deadlineM.1 ∧
    (((newAndContext c1 c2).run ops).errMemo = some m →
      (((newAndContext c1 c2).run ops).run ops2).errMemo = some m) := by
  have g0 := OrContext.good_new c1 c2
  have gr := (newOrContext c1 c2).good_run ops g0
  obtain ⟨f1, f2⟩ := (newOrContext c1 c2).run_fields ops
  have a0 := AndContext.good_new_a c1 c2
  have ar := (newAndContext c1 c2).good_run_a ops a0
  obtain ⟨e1, e2⟩ := (newAndContext c1 c2).run_fields_a ops
  refine ⟨OrContext.spawns_le _ gr, ?_, ?_, ?_,
    AndContext.spawns_le_a _ ar, ?_, ?_, ?_⟩
  · rw [OrContext.doneM_fst _ gr, OrContext.doneM_fst _ g0, f1, f2]
  · rw [OrContext.deadlineM_fst _ gr, OrContext.deadlineM_fst _ g0, f1, f2]
  · exact fun hm => OrContext.errMemo_run _ ops2 m hm
  · rw [AndContext.doneM_fst_a _ ar, AndContext.doneM_fst_a _ a0, e1, e2]
  · rw [AndContext.deadlineM_fst_a _ ar, AndContext.deadlineM_fst_a _ a0, e1, e2]
  · exact fun hm => AndContext.errMemo_run_a _ ops2 m hm

/-- C7 witness: after an `Err` call at instant 10 memoizes the aggregate
`[1, 2]`, a further `Done` call leaves the memoized aggregate unchanged. -/
theorem c7_witness :
    (((newOrContext exCtxA exCtxB).run [Op.err 10]).run [Op.done]).errMemo =
      some (some [1, 2]) :=
  (c7_memoized_once exCtxA exCtxB [Op.err 10] [Op.done] (some [1, 2])).2.2.2.1 rfl

/-- C8: `Value[T](ctx, key)` returns the stored value and `true` when the
key resolves to a value of type `T`, and the zero value of `T` and `false`
when the key is absent (nil) or the stored value is not of type `T`; it is a
pure function with no other effect. -/
theorem c8_typed_accessor (t : GoTy) (c : Ctx) (key : String) :
    (∀ v : t.interp, c.value key = t.embed v → Value t c key = (v, true)) ∧
    ((∀ v : t.interp, c.value key ≠ t.embed v) →
      Value t c key = (t.zero, false)) := by
  cases t with
  | tint =>
    constructor
    · intro v hv
      simp [Value, hv, typeAssert, GoTy.embed]
    · intro hv
      rcases h : c.value key with _ | n | s | ⟨a, b⟩ | ⟨a, b⟩
      · simp [Value, h, typeAssert]
      · exact absurd h (hv n)
      · simp [Value, h, typeAssert]
      · simp [Value, h, typeAssert]
      · simp [Value, h, typeAssert]
  | tstr =>
    constructor
    · intro v hv
      simp [Value, hv, typeAssert, GoTy.embed]
    · intro hv
      rcases h : c.value key with _ | n | s | ⟨a, b⟩ | ⟨a, b⟩
      · simp [Value, h, typeAssert]
      · simp [Value, h, typeAssert]
      · exact absurd h (hv s)
      · simp [Value, h, typeAssert]
      · simp [Value, h, typeAssert]

/-- C8 witness: the key resolves to the int `1234`, so `Value[int]` returns
`(1234, true)`. -/
theorem c8_witness : Value GoTy.tint exCtxA "key" = ((1234 : Int), true) :=
  (c8_typed_accessor GoTy.tint exCtxA "key").1 (1234 : Int) rfl

theorem lookup_filter_ne (es : List (String × GoAny)) (k : String) :
    (es.filter (fun p => p.1 != k)).lookup k = none := by
  induction es with
  | nil => rfl
  | cons p es ih =>
    by_cases h : p.1 = k
    · have hb : (p.1 != k) = false := by simp [h]
      rw [List.filter_cons, hb]
      simpa using ih
    · have hb : (p.1 != k) = true := by simp [h]
      have hk : (k == p.1) = false := by
        simp only [beq_eq_false_iff_ne]
        exact fun he => h he.symm
      rw [List.filter_cons, hb]
      simp only [if_pos rfl, List.lookup, hk]
      exact ih

/-- C9: in both combined lookups, an input whose store maps the key to a
nil value (`(k, nil)` entry in front) is indistinguishable from an input
with the key absent (all `k` entries filtered out): the combination tests
presence by comparing the looked-up value to nil. -/
theorem c9_stored_nil_is_absent (es : List (String × GoAny)) (k : String) (c : Ctx) :
    ((newOrContext (storeCtx ((k, GoAny.nil) :: es)) c).value k =
      (newOrContext (storeCtx (es.filter (fun p => p.1 != k))) c).value k) ∧
    ((newAndContext (storeCtx ((k, GoAny.nil) :: es)) c).value k =
      (newAndContext (storeCtx (es.filter (fun p => p.1 != k))) c).value k) ∧
    ((newOrContext c (storeCtx ((k, GoAny.nil) :: es))).value k =
      (newOrContext c (storeCtx (es.filter (fun p => p.1 != k)))).value k) ∧
    ((newAndContext c (storeCtx ((k, GoAny.nil) :: es))).value k =
      (newAndContext c (storeCtx (es.filter (fun p => p.1 != k)))).value k) := by
  have e1 : (storeCtx ((k, GoAny.nil) :: es)).value k = GoAny.nil := by
    simp [storeCtx, storeValue, List.lookup]
  have e2 : (storeCtx (es.filter (fun p => p.1 != k))).value k = GoAny.nil := by
    simp [storeCtx, storeValue, lookup_filter_ne]
  refine ⟨?_, ?_, ?_, ?_⟩ <;>
    simp [OrContext.value, AndContext.value, newOrContext, newAndContext, e1, e2]

/-- C10: when both inputs' done channels are nil, `Err()` returns nil on
every call (over any history, at any instant) and never blocks: the derived
done channel is nil, can never close, and the aggregation branch is
unreachable. -/
theorem c10_err_absent_when_no_done (c1 c2 : Ctx)
    (h1 : c1.done = DoneChan.nil) (h2 : c2.done = DoneChan.nil)
    (ops : List Op) (now : Nat) :
    (((newOrContext c1 c2).run ops).errM now).1 = none ∧
    (((newAndContext c1 c2).run ops).errM now).1 = none := by
  have gr := (newOrContext c1 c2).good_run ops (OrContext.good_new c1 c2)
  have ar := (newAndContext c1 c2).good_run_a ops (AndContext.good_new_a c1 c2)
  obtain ⟨f1, f2⟩ := (newOrContext c1 c2).run_fields ops
  obtain ⟨e1, e2⟩ := (newAndContext c1 c2).run_fields_a ops
  constructor
  · have hch : ((newOrContext c1 c2).run ops).doneM.1 = DoneChan.nil := by
      rw [OrContext.doneM_fst _ gr, f1, f2]
      simp [newOrContext, orCtxChan, h1, h2]
    simp [OrContext.errM, hch, DoneChan.firedBy]
  · have hch : ((newAndContext c1 c2).run ops).doneM.1 = DoneChan.nil := by
      rw [AndContext.doneM_fst_a _ ar, e1, e2]
      simp [newAndContext, andCtxChan, h1, h2]
    simp [AndContext.errM, hch, DoneChan.firedBy]

/-- C10 witness: combining two background-like contexts, `Err()` read at
instant 5 after a prior `Done` call is nil under both policies. -/
theorem c10_witness :
    (((newOrContext bgCtx bgCtx).run [Op.done]).errM 5).1 = none ∧
    (((newAndContext bgCtx bgCtx).run [Op.done]).errM 5).1 = none :=
  c10_err_absent_when_no_done bgCtx bgCtx rfl rfl [Op.done] 5

end CtxHelper
